import Mathlib

/-!
Shallow embedding of the rent-invoicing billing core
(`app/utilities/data_transformation.py` and `app/utilities/data_models.py`).

Conventions of the embedding:
* Python floats (currency amounts, rates) are modelled as rationals `ℚ`.
* Dates and datetimes are modelled as integers (day numbers / timestamps).
* UUIDs are modelled as naturals; `uuid4`-generated fresh ids are drawn from
  an explicit `fresh` counter threaded through the functions that create
  new `AccountsReceivable` records.
* Functions that mutate their arguments in place in Python (the allocation
  engine mutates `payments` and the receivables) instead return the mutated
  collections explicitly.
* A Python function that can `return None` or raise is modelled with
  `Option` / `Except Unit`.
-/

namespace RentInvoicing

/-- Floor of a rational, computed directly on its numerator and
denominator so that it reduces in the kernel. -/
def ratFloor (q : ℚ) : ℤ := Int.fdiv q.num q.den

/-- Rounding of `round(x, 2)` on the rational model: round half to even
(Python's `round` uses banker's rounding). -/
def roundHalfEven (q : ℚ) : ℤ :=
  let f := ratFloor q
  let r := q - f
  if r < 1/2 then f
  else if 1/2 < r then f + 1
  else if f % 2 = 0 then f else f + 1

/-- Model of Python `round(x, 2)`. -/
def round2 (q : ℚ) : ℚ := (roundHalfEven (q * 100) : ℚ) / 100

/-- Model of the `ChargeTypes` enum from `data_models.py`. -/
inductive ChargeTypes
  | LATEFEE
  | WATER
  | STORAGE
  | RENT
  | OTHER
deriving DecidableEq, Repr

/-- The `details` JSON payloads actually used by the billing core:
the empty default, the residual provenance marker written by the
allocation engine, and the late-fee provenance marker. -/
inductive Details
  | empty
  | residualFrom (i : ℕ)
  | originalItemId (i : ℕ)
deriving DecidableEq, Repr

/-- Model of `AccountsReceivable` (the fields the billing core reads). -/
structure AccountsReceivable where
  id : ℕ
  account_id : ℕ
  amount_due : ℚ
  statement_date : ℤ
  charge_type : ChargeTypes
  paid : Bool
  details : Details
  inserted_at : ℤ
deriving DecidableEq, Repr

/-- Model of `Payment` (the fields the allocation engine reads and writes). -/
structure Payment where
  id : ℕ
  beneficiary_account_id : ℕ
  amount : ℚ
  amount_applied : ℚ
deriving DecidableEq, Repr

/-- Model of `Account` (the fields charge issuance reads). -/
structure Account where
  id : ℕ
  lot_id : Option ℕ
  rental_rate_override : Option ℚ
  storage_count : ℚ
deriving DecidableEq, Repr

/-- Model of `InvoiceSetting`. -/
structure InvoiceSetting where
  rent_monthly_rate : ℤ
  water_monthly_rate : ℚ
  water_service_fee : ℚ
  storage_monthly_rate : ℤ
  late_fee_rate : ℚ
  overdue_cutoff_days : ℤ
  effective_as_of : ℤ
deriving DecidableEq, Repr

/-- Default field values of `InvoiceSetting` from `data_models.py`. -/
def defaultInvoiceSetting : InvoiceSetting :=
  { rent_monthly_rate := 475
    water_monthly_rate := 11784 / 1000000
    water_service_fee := 3/2
    storage_monthly_rate := 84
    late_fee_rate := 1/20
    overdue_cutoff_days := 10
    effective_as_of := 0 }

/-- Model of `WaterUsage` (validated so that `current_reading ≥ previous_reading`). -/
structure WaterUsage where
  watermeter_id : ℕ
  previous_reading : ℤ
  current_reading : ℤ
  statement_date : ℤ
deriving DecidableEq, Repr

/-- Model of the `WaterUsage.water_usage` property. -/
def WaterUsage.water_usage (w : WaterUsage) : ℤ :=
  w.current_reading - w.previous_reading

/-- Model of `WaterUsage.water_bill_dollar_amount`. -/
def WaterUsage.water_bill_dollar_amount (w : WaterUsage) (water_rate service_fee : ℚ) : ℚ :=
  round2 ((w.water_usage : ℚ) * water_rate + service_fee)

/-- The `validate_amount_input` pydantic model validator of
`AccountsReceivable`: constructing a receivable with a negative amount
for a non-OTHER charge kind raises (modelled as `none`). -/
def validate_amount_input (ar : AccountsReceivable) : Option AccountsReceivable :=
  if ar.amount_due < 0 ∧ ar.charge_type ≠ ChargeTypes.OTHER then none else some ar

/-- Validated construction of an `AccountsReceivable` (pydantic runs
`validate_amount_input` at construction). -/
def mkAR? (i aid : ℕ) (amt : ℚ) (sd : ℤ) (ct : ChargeTypes) (pd : Bool)
    (dt : Details) (ins : ℤ) : Option AccountsReceivable :=
  validate_amount_input ⟨i, aid, amt, sd, ct, pd, dt, ins⟩

/-! ### Payment allocation engine (`process_accounts_receivables`) -/

/-- Stable insertion of a receivable into a list sorted by `inserted_at`
descending; together with `sortByInsertedDesc` this reproduces
`sorted(accounts_receivables, key=lambda ar: ar.inserted_at, reverse=True)`
(Python's sort is stable, and `reverse=True` keeps the original order of
equal keys). -/
def sortInsert (a : AccountsReceivable) :
    List AccountsReceivable → List AccountsReceivable
  | [] => [a]
  | b :: l => if b.inserted_at ≤ a.inserted_at then a :: b :: l else b :: sortInsert a l

/-- Sort receivables by `inserted_at` datetime descending (stable). -/
def sortByInsertedDesc : List AccountsReceivable → List AccountsReceivable
  | [] => []
  | a :: l => sortInsert a (sortByInsertedDesc l)

/-- The `original_amounts = {i.id: i.amount_due for i in accounts_receivables}`
dictionary: looking up an id returns the `amount_due` of the last entry of
the list bearing that id (later dict insertions overwrite earlier ones). -/
def origAmountMap (l : List AccountsReceivable) (i : ℕ) : ℚ :=
  match (l.filter (fun ar => decide (ar.id = i))).getLast? with
  | some ar => ar.amount_due
  | none => 0

/-- State returned by the inner `while` loop of the engine: the payment
list (mutated in place in Python), the running payment pointer, the
receivable's remaining `amount_due` and `paid` flag, and the loop's
`tried_processing` flag. -/
structure PayLoopOut where
  payments : List Payment
  idx : ℕ
  amount_due : ℚ
  paid : Bool
  tried : Bool
deriving DecidableEq, Repr

/-- The inner `while payment_index < len(payments) and receivable.amount_due > 0`
loop of `process_accounts_receivables`, for one receivable.  The loop
terminates because every iteration either advances `payment_index` or sets
`amount_due` to zero (exiting at the next guard check), so a fuel of
`payments.length + 1` always suffices; the fuel argument only makes the
recursion structural. -/
def allocLoop : ℕ → List Payment → ℕ → ℚ → Bool → Bool → PayLoopOut
  | 0, ps, idx, due, pd, tried => ⟨ps, idx, due, pd, tried⟩
  | fuel + 1, ps, idx, due, pd, tried =>
    if h : idx < ps.length ∧ 0 < due then
      let p := ps.get ⟨idx, h.1⟩
      let available := p.amount - p.amount_applied
      if 0 < available then
        if due ≤ available then
          -- payment fully covers the receivable; the while-guard then fails
          let p' := { p with amount_applied := p.amount_applied + due }
          ⟨ps.set idx p', if p'.amount ≤ p'.amount_applied then idx + 1 else idx, 0, true, true⟩
        else
          -- partial cover; the payment is exhausted and the pointer advances
          let p' := { p with amount_applied := p.amount_applied + available }
          allocLoop fuel (ps.set idx p')
            (if p'.amount ≤ p'.amount_applied then idx + 1 else idx)
            (due - available) pd true
      else
        allocLoop fuel ps
          (if p.amount ≤ p.amount_applied then idx + 1 else idx) due pd tried
    else ⟨ps, idx, due, pd, tried⟩

/-- Output of the main loop of the engine. -/
structure LoopOut where
  residual : List AccountsReceivable
  not_paid : List AccountsReceivable
  part_paid : List AccountsReceivable
  fully_paid : List AccountsReceivable
  payments : List Payment
  idx : ℕ
  fresh : ℕ
deriving DecidableEq, Repr

/-- The `for receivable in accounts_receivables` loop of
`process_accounts_receivables`, including the four-way classification of
each receivable after its payment loop.  `orig` is the `original_amounts`
dictionary; `fresh` supplies the `uuid4` ids of minted residuals. -/
def processLoop (orig : ℕ → ℚ) :
    List AccountsReceivable → List Payment → ℕ → ℕ → LoopOut
  | [], ps, idx, fresh => ⟨[], [], [], [], ps, idx, fresh⟩
  | r :: rest, ps, idx, fresh =>
    let o := allocLoop (ps.length + 1) ps idx r.amount_due r.paid false
    if 0 < o.amount_due ∧ o.tried = true then
      -- partially covered: mint a residual, restore and mark the original
      let newR : AccountsReceivable :=
        ⟨fresh, r.account_id, round2 o.amount_due, r.statement_date, r.charge_type,
         false, Details.residualFrom r.id, r.inserted_at⟩
      let nxt := processLoop orig rest o.payments o.idx (fresh + 1)
      ⟨newR :: nxt.residual, nxt.not_paid,
       { r with amount_due := orig r.id, paid := true } :: nxt.part_paid,
       nxt.fully_paid, nxt.payments, nxt.idx, nxt.fresh⟩
    else if 0 < o.amount_due ∧ o.tried = false then
      -- not paid at all
      let nxt := processLoop orig rest o.payments o.idx fresh
      ⟨nxt.residual, { r with amount_due := o.amount_due, paid := o.paid } :: nxt.not_paid,
       nxt.part_paid, nxt.fully_paid, nxt.payments, nxt.idx, nxt.fresh⟩
    else if o.amount_due = 0 ∧ o.paid = true then
      -- fully paid: restore the original amount for caller display
      let nxt := processLoop orig rest o.payments o.idx fresh
      ⟨nxt.residual, nxt.not_paid, nxt.part_paid,
       { r with amount_due := orig r.id, paid := o.paid } :: nxt.fully_paid,
       nxt.payments, nxt.idx, nxt.fresh⟩
    else
      processLoop orig rest o.payments o.idx fresh

/-- Result of `process_accounts_receivables`.  Python returns the four
lists and mutates `payments` in place; the mutated payments and the fresh
id counter are returned explicitly here. -/
structure AllocResult where
  residual : List AccountsReceivable
  not_paid : List AccountsReceivable
  part_paid : List AccountsReceivable
  fully_paid : List AccountsReceivable
  payments : List Payment
  fresh : ℕ
deriving DecidableEq, Repr

/-- Model of `process_accounts_receivables(accounts_receivables, payments)`. -/
def process_accounts_receivables (accounts_receivables : List AccountsReceivable)
    (payments : List Payment) (fresh : ℕ) : AllocResult :=
  let sorted := sortByInsertedDesc accounts_receivables
  let orig := origAmountMap sorted
  if payments.isEmpty then ⟨[], sorted, [], [], payments, fresh⟩
  else
    let o := processLoop orig sorted payments 0 fresh
    ⟨o.residual, o.not_paid, o.part_paid, o.fully_paid, o.payments, o.fresh⟩

/-! ### Late fee calculator (`incur_late_fee`) -/

/-- The list comprehension of `incur_late_fee` building one LATEFEE
receivable per kept overdue item (pydantic validation can raise, hence
`Option`). -/
def buildLateFees (config : InvoiceSetting) (statement_date now : ℤ) :
    List AccountsReceivable → ℕ → Option (List AccountsReceivable)
  | [], _ => some []
  | o :: rest, fresh =>
    match mkAR? fresh o.account_id (round2 (o.amount_due * config.late_fee_rate))
        statement_date ChargeTypes.LATEFEE false (Details.originalItemId o.id) now with
    | some ar => (buildLateFees config statement_date now rest (fresh + 1)).map (ar :: ·)
    | none => none

/-- Model of `incur_late_fee(overdue_items, config, statement_date, processing_date, payments)`.
Note: the source compares against a hardcoded `timedelta(days=10)`; its
inline comment names `setting.overdue_cutoff_days` but the config field is
never read. -/
def incur_late_fee (overdue_items : List AccountsReceivable) (config : InvoiceSetting)
    (statement_date : ℤ) (processing_date : Option ℤ) (payments : List Payment)
    (now : ℤ) (fresh : ℕ) : Option (List AccountsReceivable) :=
  let out := process_accounts_receivables overdue_items payments fresh
  let still_overdue := out.not_paid ++ out.residual
  let kept := still_overdue.filter (fun o =>
    match processing_date with
    | none => true
    | some pd => decide (o.statement_date + 10 ≤ pd))
  buildLateFees config statement_date now kept out.fresh

/-! ### Duplicate filter (`_compare_ar_pair`, `_check_duplicate`, `filter_for_new_items`) -/

/-- Model of `_compare_ar_pair`: true when a receivable with the same account id,
charge type and statement date is found in the list, unless the charge
type is OTHER. -/
def _compare_ar_pair (ar : AccountsReceivable)
    (ars : List AccountsReceivable) : Bool :=
  ars.any (fun i => decide (ar.account_id = i.account_id ∧
    ar.charge_type = i.charge_type ∧ ar.statement_date = i.statement_date ∧
    ar.charge_type ≠ ChargeTypes.OTHER))

/-- The `to_pop` index accumulation loop of `_check_duplicate`. -/
def toPopAux (outstanding : List AccountsReceivable) :
    List AccountsReceivable → ℕ → List ℕ
  | [], _ => []
  | i :: rest, idx =>
    if _compare_ar_pair i outstanding then idx :: toPopAux outstanding rest (idx + 1)
    else toPopAux outstanding rest (idx + 1)

/-- Model of `_check_duplicate`: pops every duplicate entry (popping the collected
indices in reverse order, as the source does). -/
def _check_duplicate (receivables_list outstanding : List AccountsReceivable) :
    List AccountsReceivable :=
  if receivables_list.isEmpty || outstanding.isEmpty then receivables_list
  else
    (toPopAux outstanding receivables_list 0).reverse.foldl
      (fun acc i => acc.eraseIdx i) receivables_list

/-- Model of `filter_for_new_items`: dedup each of the four candidate lists against
the outstanding list. -/
def filter_for_new_items (outstanding rents storages new_late_fees waters :
    List AccountsReceivable) :
    List AccountsReceivable × List AccountsReceivable ×
    List AccountsReceivable × List AccountsReceivable :=
  (_check_duplicate rents outstanding, _check_duplicate storages outstanding,
   _check_duplicate new_late_fees outstanding, _check_duplicate waters outstanding)

/-! ### Recurring charge issuance (`incur_recurring_charges`) -/

/-- An element of `input_list`: an `Account` (RENT/STORAGE) or an
`(account_id, WaterUsage)` tuple (WATER). -/
inductive RecurringInput
  | acct (a : Account)
  | water (w : ℕ × WaterUsage)
deriving DecidableEq, Repr

/-- Model of `_get_acct_id`: the account id of an input element.  A charge type /
element type mismatch raises in Python (attribute / subscript error) and a
LATEFEE or OTHER charge type falls through returning `None`; both are
modelled as `none` (either way the construction below fails). -/
def _get_acct_id (charge_type : ChargeTypes) : RecurringInput → Option ℕ
  | RecurringInput.acct a =>
    if charge_type = ChargeTypes.RENT ∨ charge_type = ChargeTypes.STORAGE then some a.id
    else none
  | RecurringInput.water w =>
    if charge_type = ChargeTypes.WATER then some w.1 else none

/-- Model of `_calculate_amount_due`.  Python truthiness: a rent override of `None`
or `0.0` falls back to the config rate; a storage count of `0.0` yields 0. -/
def _calculate_amount_due (config : InvoiceSetting) (charge_type : ChargeTypes) :
    RecurringInput → Option ℚ
  | RecurringInput.acct a =>
    if charge_type = ChargeTypes.RENT then
      some (if a.lot_id = none then 0
        else match a.rental_rate_override with
          | some o => if o ≠ 0 then o else (config.rent_monthly_rate : ℚ)
          | none => (config.rent_monthly_rate : ℚ))
    else if charge_type = ChargeTypes.STORAGE then
      some (if a.storage_count ≠ 0 then
        a.storage_count * (config.storage_monthly_rate : ℚ) else 0)
    else none
  | RecurringInput.water w =>
    if charge_type = ChargeTypes.WATER then
      some (w.2.water_bill_dollar_amount config.water_monthly_rate config.water_service_fee)
    else none

/-- The list comprehension of `incur_recurring_charges` constructing the
receivables (in order, with sequential fresh ids); a `None` amount or id,
or a pydantic validation failure, raises. -/
def buildRecurring (config : InvoiceSetting) (charge_type : ChargeTypes)
    (statement_date now : ℤ) :
    List RecurringInput → ℕ → Except Unit (List AccountsReceivable)
  | [], _ => Except.ok []
  | i :: rest, fresh =>
    match _get_acct_id charge_type i, _calculate_amount_due config charge_type i with
    | some aid, some amt =>
      match mkAR? fresh aid amt statement_date charge_type false Details.empty now with
      | some ar =>
        (buildRecurring config charge_type statement_date now rest (fresh + 1)).map (ar :: ·)
      | none => Except.error ()
    | _, _ => Except.error ()

/-- Model of `incur_recurring_charges(input_list, charge_type, statement_date, config)`.
`Except.error` models a raised exception; `Except.ok none` models the
`return` of `None` on an empty input list. -/
def incur_recurring_charges (input_list : List RecurringInput)
    (charge_type : ChargeTypes) (statement_date : ℤ) (config : InvoiceSetting)
    (now : ℤ) (fresh : ℕ) : Except Unit (Option (List AccountsReceivable)) :=
  if input_list.length = 0 then Except.ok none
  else
    let kept := input_list.filter
      (fun i => _calculate_amount_due config charge_type i ≠ some 0)
    (buildRecurring config charge_type statement_date now kept fresh).map some

/-! ### Basic lemmas about rounding and cent-valued amounts -/

/-- A rational amount is cent-valued when it is a whole number of
hundredths (the precision at which currency amounts are entered). -/
def Cents (q : ℚ) : Prop := ∃ n : ℤ, q * 100 = (n : ℚ)

theorem ratFloor_intCast (n : ℤ) : ratFloor (n : ℚ) = n := by
  simp [ratFloor, Rat.num_intCast, Rat.den_intCast, Int.fdiv_one]

theorem roundHalfEven_intCast (n : ℤ) : roundHalfEven (n : ℚ) = n := by
  simp only [roundHalfEven, ratFloor_intCast]
  norm_num

theorem round2_eq_self_of_cents {q : ℚ} (h : Cents q) : round2 q = q := by
  obtain ⟨n, hn⟩ := h
  have h100 : (100 : ℚ) ≠ 0 := by norm_num
  rw [round2, hn, roundHalfEven_intCast, ← hn]
  field_simp

theorem Cents.sub {a b : ℚ} (ha : Cents a) (hb : Cents b) : Cents (a - b) := by
  obtain ⟨m, hm⟩ := ha
  obtain ⟨n, hn⟩ := hb
  exact ⟨m - n, by push_cast [sub_mul, hm, hn]; ring⟩

theorem Cents.add {a b : ℚ} (ha : Cents a) (hb : Cents b) : Cents (a + b) := by
  obtain ⟨m, hm⟩ := ha
  obtain ⟨n, hn⟩ := hb
  exact ⟨m + n, by push_cast [add_mul, hm, hn]; ring⟩

theorem Cents.zero : Cents 0 := ⟨0, by norm_num⟩

/-! ### Lemmas about the receivables sort -/

/-- The descending-by-`inserted_at` ordering used by the engine. -/
def InsDesc (a b : AccountsReceivable) : Prop := b.inserted_at ≤ a.inserted_at

theorem sortInsert_perm (a : AccountsReceivable) (l : List AccountsReceivable) :
    List.Perm (sortInsert a l) (a :: l) := by
  induction l with
  | nil => simp [sortInsert]
  | cons b t ih =>
    rw [sortInsert]
    split
    · exact List.Perm.refl _
    · exact (ih.cons b).trans (List.Perm.swap a b t)

theorem sortByInsertedDesc_perm (l : List AccountsReceivable) :
    List.Perm (sortByInsertedDesc l) l := by
  induction l with
  | nil => exact List.Perm.refl _
  | cons a t ih => exact (sortInsert_perm a (sortByInsertedDesc t)).trans (ih.cons a)

theorem sortInsert_sorted {l : List AccountsReceivable} (a : AccountsReceivable)
    (h : List.Sorted InsDesc l) : List.Sorted InsDesc (sortInsert a l) := by
  induction l with
  | nil => simp [sortInsert]
  | cons b t ih =>
    rw [sortInsert]
    rw [List.sorted_cons] at h
    split
    · rename_i hba
      rw [List.sorted_cons]
      refine ⟨fun x hx => ?_, List.sorted_cons.2 h⟩
      rcases List.mem_cons.1 hx with rfl | hxt
      · exact hba
      · exact le_trans (h.1 x hxt) hba
    · rename_i hba
      rw [List.sorted_cons]
      refine ⟨fun x hx => ?_, ih h.2⟩
      rcases List.mem_cons.1 ((sortInsert_perm a t).mem_iff.1 hx) with rfl | hxt
      · exact le_of_not_le hba
      · exact h.1 x hxt

theorem sortByInsertedDesc_sorted (l : List AccountsReceivable) :
    List.Sorted InsDesc (sortByInsertedDesc l) := by
  induction l with
  | nil => simp [sortByInsertedDesc]
  | cons a t ih => exact sortInsert_sorted a ih

/-! ### Lemmas about the inner payment loop -/

/-- Total `amount_applied` across a payment list. -/
def sumApplied (ps : List Payment) : ℚ := (ps.map Payment.amount_applied).sum

theorem sumApplied_set (ps : List Payment) (i : ℕ) (p : Payment) (h : i < ps.length) :
    sumApplied (ps.set i p)
      = sumApplied ps - (ps.get ⟨i, h⟩).amount_applied + p.amount_applied := by
  induction ps generalizing i with
  | nil => simp at h
  | cons a t ih =>
    cases i with
    | zero => simp [sumApplied, List.set]; ring
    | succ n =>
      have hn : n < t.length := by simpa using h
      simp only [List.set, sumApplied, List.map_cons, List.sum_cons] at ih ⊢
      rw [ih n hn]
      simp [List.get]
      ring

theorem allocLoop_length (fuel : ℕ) (ps : List Payment) (idx : ℕ) (due : ℚ)
    (pd tried : Bool) :
    (allocLoop fuel ps idx due pd tried).payments.length = ps.length := by
  induction fuel generalizing ps idx due pd tried with
  | zero => rfl
  | succ n ih =>
    simp only [allocLoop]
    split
    · split
      · split
        · simp
        · rw [ih]; simp
      · exact ih ps _ due pd tried
    · rfl

theorem allocLoop_applied_le (fuel : ℕ) (ps : List Payment) (idx : ℕ) (due : ℚ)
    (pd tried : Bool) (h : ∀ p ∈ ps, p.amount_applied ≤ p.amount) :
    ∀ p ∈ (allocLoop fuel ps idx due pd tried).payments,
      p.amount_applied ≤ p.amount := by
  induction fuel generalizing ps idx due pd tried with
  | zero => exact h
  | succ n ih =>
    simp only [allocLoop]
    split
    · rename_i hg
      split
      · rename_i hav
        split
        · rename_i hcov
          intro q hq
          rcases List.mem_or_eq_of_mem_set hq with hq | rfl
          · exact h q hq
          · dsimp only
            linarith
        · rename_i hcov
          apply ih
          intro q hq
          rcases List.mem_or_eq_of_mem_set hq with hq | rfl
          · exact h q hq
          · dsimp only
            linarith
      · exact ih ps _ due pd tried h
    · exact h

theorem allocLoop_sumApplied (fuel : ℕ) (ps : List Payment) (idx : ℕ) (due : ℚ)
    (pd tried : Bool) :
    sumApplied (allocLoop fuel ps idx due pd tried).payments
      = sumApplied ps + (due - (allocLoop fuel ps idx due pd tried).amount_due) := by
  induction fuel generalizing ps idx due pd tried with
  | zero =>
    show sumApplied ps = sumApplied ps + (due - due)
    ring
  | succ n ih =>
    simp only [allocLoop]
    split
    · rename_i hg
      split
      · rename_i hav
        split
        · rename_i hcov
          dsimp only
          rw [sumApplied_set ps idx _ hg.1]
          ring
        · rename_i hcov
          rw [ih]
          rw [sumApplied_set ps idx _ hg.1]
          dsimp only
          ring
      · exact ih ps _ due pd tried
    · show sumApplied ps = sumApplied ps + (due - due)
      ring

theorem allocLoop_tried_of_tried (fuel : ℕ) (ps : List Payment) (idx : ℕ) (due : ℚ)
    (pd : Bool) : (allocLoop fuel ps idx due pd true).tried = true := by
  induction fuel generalizing ps idx due pd with
  | zero => rfl
  | succ n ih =>
    simp only [allocLoop]
    split
    · split
      · split
        · rfl
        · exact ih _ _ _ pd
      · exact ih ps _ due pd
    · rfl

theorem allocLoop_of_tried_false (fuel : ℕ) (ps : List Payment) (idx : ℕ) (due : ℚ)
    (pd tried : Bool) :
    (allocLoop fuel ps idx due pd tried).tried = false →
    (allocLoop fuel ps idx due pd tried).payments = ps ∧
    (allocLoop fuel ps idx due pd tried).amount_due = due ∧
    (allocLoop fuel ps idx due pd tried).paid = pd ∧
    (allocLoop fuel ps idx due pd tried).tried = tried := by
  induction fuel generalizing ps idx due pd tried with
  | zero => exact fun _ => ⟨rfl, rfl, rfl, rfl⟩
  | succ n ih =>
    simp only [allocLoop]
    split
    · rename_i hg
      split
      · rename_i hav
        split
        · rename_i hcov
          intro h
          simp at h
        · rename_i hcov
          intro h
          rw [allocLoop_tried_of_tried] at h
          simp at h
      · exact ih ps _ due pd tried
    · exact fun _ => ⟨rfl, rfl, rfl, rfl⟩

theorem allocLoop_no_run (fuel : ℕ) (ps : List Payment) (idx : ℕ) (due : ℚ)
    (pd tried : Bool) (h : ¬ 0 < due) :
    allocLoop fuel ps idx due pd tried = ⟨ps, idx, due, pd, tried⟩ := by
  cases fuel with
  | zero => rfl
  | succ n =>
    rw [allocLoop, dif_neg]
    intro hg
    exact h hg.2

theorem allocLoop_cents (fuel : ℕ) (ps : List Payment) (idx : ℕ) (due : ℚ)
    (pd tried : Bool) (hd : Cents due)
    (hp : ∀ p ∈ ps, Cents p.amount ∧ Cents p.amount_applied) :
    Cents (allocLoop fuel ps idx due pd tried).amount_due := by
  induction fuel generalizing ps idx due pd tried with
  | zero => exact hd
  | succ n ih =>
    simp only [allocLoop]
    split
    · rename_i hg
      split
      · rename_i hav
        split
        · exact Cents.zero
        · rename_i hcov
          have hmem := List.get_mem ps idx hg.1
          have hpc := hp _ hmem
          apply ih
          · exact hd.sub (hpc.1.sub hpc.2)
          · intro q hq
            rcases List.mem_or_eq_of_mem_set hq with hq | rfl
            · exact hp q hq
            · exact ⟨hpc.1, hpc.2.add (hpc.1.sub hpc.2)⟩
      · exact ih ps _ due pd tried hd hp
    · exact hd

/-! ### Lemmas about the main engine loop -/

/-- Relation between a minted residual receivable and its partially paid
original: same account, kind, period and timestamp, residual unpaid with
provenance details, original restored to the recorded original amount and
marked paid, and the residual's amount a 2-decimal rounding of a positive
leftover. -/
def ResidualRel (orig : ℕ → ℚ) (res pp : AccountsReceivable) : Prop :=
  res.account_id = pp.account_id ∧ res.charge_type = pp.charge_type ∧
  res.statement_date = pp.statement_date ∧ res.paid = false ∧
  res.details = Details.residualFrom pp.id ∧ res.inserted_at = pp.inserted_at ∧
  pp.paid = true ∧ pp.amount_due = orig pp.id ∧
  ∃ d : ℚ, 0 < d ∧ res.amount_due = round2 d

theorem processLoop_forall₂ (orig : ℕ → ℚ) (l : List AccountsReceivable)
    (ps : List Payment) (idx fresh : ℕ) :
    List.Forall₂ (ResidualRel orig) (processLoop orig l ps idx fresh).residual
      (processLoop orig l ps idx fresh).part_paid := by
  induction l generalizing ps idx fresh with
  | nil => exact List.Forall₂.nil
  | cons r rest ih =>
    simp only [processLoop]
    split
    · rename_i hc
      dsimp only
      refine List.Forall₂.cons ?_ (ih _ _ _)
      exact ⟨rfl, rfl, rfl, rfl, rfl, rfl, rfl, rfl, _, hc.1, rfl⟩
    · split
      · exact ih _ _ _
      · split
        · exact ih _ _ _
        · exact ih _ _ _

theorem processLoop_applied_le (orig : ℕ → ℚ) (l : List AccountsReceivable)
    (ps : List Payment) (idx fresh : ℕ)
    (h : ∀ p ∈ ps, p.amount_applied ≤ p.amount) :
    ∀ p ∈ (processLoop orig l ps idx fresh).payments,
      p.amount_applied ≤ p.amount := by
  induction l generalizing ps idx fresh with
  | nil => exact h
  | cons r rest ih =>
    simp only [processLoop]
    split
    · exact ih _ _ _ (allocLoop_applied_le _ _ _ _ _ _ h)
    · split
      · exact ih _ _ _ (allocLoop_applied_le _ _ _ _ _ _ h)
      · split
        · exact ih _ _ _ (allocLoop_applied_le _ _ _ _ _ _ h)
        · exact ih _ _ _ (allocLoop_applied_le _ _ _ _ _ _ h)

/-- A receivable that enters the engine with a negative amount, or with a
zero amount while unpaid, falls through every classification branch. -/
def badEntry (r : AccountsReceivable) : Prop :=
  r.amount_due < 0 ∨ (r.amount_due = 0 ∧ r.paid = false)

theorem badEntry_not_pos {r : AccountsReceivable} (h : badEntry r) :
    ¬ 0 < r.amount_due := by
  rcases h with h | ⟨h, _⟩
  · linarith
  · rw [h]; exact lt_irrefl 0

theorem processLoop_ids (orig : ℕ → ℚ) (l : List AccountsReceivable)
    (ps : List Payment) (idx fresh : ℕ) :
    (∀ x ∈ (processLoop orig l ps idx fresh).not_paid,
        ∃ y ∈ l, x.id = y.id ∧ ¬ badEntry y) ∧
    (∀ x ∈ (processLoop orig l ps idx fresh).part_paid,
        ∃ y ∈ l, x.id = y.id ∧ ¬ badEntry y) ∧
    (∀ x ∈ (processLoop orig l ps idx fresh).fully_paid,
        ∃ y ∈ l, x.id = y.id ∧ ¬ badEntry y) ∧
    (∀ x ∈ (processLoop orig l ps idx fresh).residual, fresh ≤ x.id) := by
  induction l generalizing ps idx fresh with
  | nil =>
    refine ⟨?_, ?_, ?_, ?_⟩ <;> simp [processLoop]
  | cons r rest ih =>
    simp only [processLoop]
    split
    · rename_i hc
      dsimp only
      obtain ⟨ihnp, ihpp, ihfp, ihres⟩ := ih (allocLoop (ps.length + 1) ps idx
        r.amount_due r.paid false).payments (allocLoop (ps.length + 1) ps idx
        r.amount_due r.paid false).idx (fresh + 1)
      refine ⟨?_, ?_, ?_, ?_⟩
      · intro x hx
        obtain ⟨y, hy, h1, h2⟩ := ihnp x hx
        exact ⟨y, List.mem_cons_of_mem r hy, h1, h2⟩
      · intro x hx
        rcases List.mem_cons.1 hx with rfl | hx
        · refine ⟨r, List.mem_cons_self r rest, rfl, fun hbad => ?_⟩
          rw [allocLoop_no_run _ _ _ _ _ _ (badEntry_not_pos hbad)] at hc
          simp at hc
        · obtain ⟨y, hy, h1, h2⟩ := ihpp x hx
          exact ⟨y, List.mem_cons_of_mem r hy, h1, h2⟩
      · intro x hx
        obtain ⟨y, hy, h1, h2⟩ := ihfp x hx
        exact ⟨y, List.mem_cons_of_mem r hy, h1, h2⟩
      · intro x hx
        rcases List.mem_cons.1 hx with rfl | hx
        · exact le_refl _
        · exact le_trans (Nat.le_succ fresh) (ihres x hx)
    · split
      · rename_i hc hc2
        dsimp only
        obtain ⟨ihnp, ihpp, ihfp, ihres⟩ := ih (allocLoop (ps.length + 1) ps idx
          r.amount_due r.paid false).payments (allocLoop (ps.length + 1) ps idx
          r.amount_due r.paid false).idx fresh
        refine ⟨?_, ?_, ?_, ?_⟩
        · intro x hx
          rcases List.mem_cons.1 hx with rfl | hx
          · refine ⟨r, List.mem_cons_self r rest, rfl, fun hbad => ?_⟩
            obtain ⟨-, hdue, -, -⟩ := allocLoop_of_tried_false _ _ _ _ _ _ hc2.2
            exact badEntry_not_pos hbad (hdue ▸ hc2.1)
          · obtain ⟨y, hy, h1, h2⟩ := ihnp x hx
            exact ⟨y, List.mem_cons_of_mem r hy, h1, h2⟩
        · intro x hx
          obtain ⟨y, hy, h1, h2⟩ := ihpp x hx
          exact ⟨y, List.mem_cons_of_mem r hy, h1, h2⟩
        · intro x hx
          obtain ⟨y, hy, h1, h2⟩ := ihfp x hx
          exact ⟨y, List.mem_cons_of_mem r hy, h1, h2⟩
        · exact ihres
      · split
        · rename_i hc hc2 hc3
          dsimp only
          obtain ⟨ihnp, ihpp, ihfp, ihres⟩ := ih (allocLoop (ps.length + 1) ps idx
            r.amount_due r.paid false).payments (allocLoop (ps.length + 1) ps idx
            r.amount_due r.paid false).idx fresh
          refine ⟨?_, ?_, ?_, ?_⟩
          · intro x hx
            obtain ⟨y, hy, h1, h2⟩ := ihnp x hx
            exact ⟨y, List.mem_cons_of_mem r hy, h1, h2⟩
          · intro x hx
            obtain ⟨y, hy, h1, h2⟩ := ihpp x hx
            exact ⟨y, List.mem_cons_of_mem r hy, h1, h2⟩
          · intro x hx
            rcases List.mem_cons.1 hx with rfl | hx
            · refine ⟨r, List.mem_cons_self r rest, rfl, fun hbad => ?_⟩
              rw [allocLoop_no_run _ _ _ _ _ _ (badEntry_not_pos hbad)] at hc3
              rcases hbad with hbad | ⟨hbad, hpaid⟩
              · exact absurd hc3.1 (by simpa using ne_of_lt hbad)
              · rw [hpaid] at hc3
                simp at hc3
            · obtain ⟨y, hy, h1, h2⟩ := ihfp x hx
              exact ⟨y, List.mem_cons_of_mem r hy, h1, h2⟩
          · exact ihres
        · obtain ⟨ihnp, ihpp, ihfp, ihres⟩ := ih (allocLoop (ps.length + 1) ps idx
            r.amount_due r.paid false).payments (allocLoop (ps.length + 1) ps idx
            r.amount_due r.paid false).idx fresh
          refine ⟨?_, ?_, ?_, ?_⟩
          · intro x hx
            obtain ⟨y, hy, h1, h2⟩ := ihnp x hx
            exact ⟨y, List.mem_cons_of_mem r hy, h1, h2⟩
          · intro x hx
            obtain ⟨y, hy, h1, h2⟩ := ihpp x hx
            exact ⟨y, List.mem_cons_of_mem r hy, h1, h2⟩
          · intro x hx
            obtain ⟨y, hy, h1, h2⟩ := ihfp x hx
            exact ⟨y, List.mem_cons_of_mem r hy, h1, h2⟩
          · exact ihres

/-! ### Lemmas about the duplicate filter -/

theorem _compare_ar_pair_iff (ar : AccountsReceivable)
    (ars : List AccountsReceivable) :
    _compare_ar_pair ar ars = true ↔
      ar.charge_type ≠ ChargeTypes.OTHER ∧ ∃ i ∈ ars,
        ar.account_id = i.account_id ∧ ar.charge_type = i.charge_type ∧
        ar.statement_date = i.statement_date := by
  simp only [_compare_ar_pair, List.any_eq_true, decide_eq_true_eq]
  constructor
  · rintro ⟨i, hi, h1, h2, h3, h4⟩
    exact ⟨h4, i, hi, h1, h2, h3⟩
  · rintro ⟨h4, i, hi, h1, h2, h3⟩
    exact ⟨i, hi, h1, h2, h3, h4⟩

theorem toPopAux_succ (outst : List AccountsReceivable)
    (l : List AccountsReceivable) (n : ℕ) :
    toPopAux outst l (n + 1) = (toPopAux outst l n).map (· + 1) := by
  induction l generalizing n with
  | nil => rfl
  | cons i rest ih =>
    cases hcp : _compare_ar_pair i outst <;> simp [toPopAux, hcp, ih]

theorem foldl_eraseIdx_map_succ {α : Type} (is : List ℕ) (a : α) (t : List α) :
    List.foldl (fun acc i => acc.eraseIdx i) (a :: t) (is.map (· + 1))
      = a :: List.foldl (fun acc i => acc.eraseIdx i) t is := by
  induction is generalizing t with
  | nil => rfl
  | cons i is ih =>
    simp only [List.map_cons, List.foldl_cons, List.eraseIdx_cons_succ]
    exact ih _

theorem toPop_foldl (outst : List AccountsReceivable) :
    ∀ rl : List AccountsReceivable,
    (toPopAux outst rl 0).reverse.foldl (fun acc i => acc.eraseIdx i) rl
      = rl.filter (fun r => ! _compare_ar_pair r outst) := by
  intro rl
  induction rl with
  | nil => rfl
  | cons a t ih =>
    cases hcp : _compare_ar_pair a outst with
    | true =>
      simp only [toPopAux, hcp, if_true, toPopAux_succ, List.reverse_cons,
        ← List.map_reverse]
      rw [List.foldl_append, foldl_eraseIdx_map_succ, ih]
      simp [List.filter_cons, hcp]
    | false =>
      simp only [toPopAux, hcp, Bool.false_eq_true, if_false, toPopAux_succ,
        ← List.map_reverse]
      rw [foldl_eraseIdx_map_succ, ih]
      simp [List.filter_cons, hcp]

theorem check_duplicate_eq_filter (rl outst : List AccountsReceivable) :
    _check_duplicate rl outst
      = rl.filter (fun r => ! _compare_ar_pair r outst) := by
  rw [_check_duplicate]
  by_cases h1 : rl.isEmpty
  · rw [List.isEmpty_iff.1 h1]
    simp
  · by_cases h2 : outst.isEmpty
    · rw [List.isEmpty_iff.1 h2]
      simp [_compare_ar_pair]
    · simp only [h1, h2, Bool.or_self, if_false, Bool.false_or]
      exact toPop_foldl outst rl

theorem check_duplicate_idem (rl outst : List AccountsReceivable) :
    _check_duplicate (_check_duplicate rl outst) outst
      = _check_duplicate rl outst := by
  rw [check_duplicate_eq_filter, check_duplicate_eq_filter rl outst,
    List.filter_filter]
  simp

/-! ### Claim theorems -/

/-- C1: for one receivable of `amount_due = 100` and one payment of
`amount = 60`, the engine returns exactly one residual of `amount_due = 40`
(same account, kind and period, unpaid, provenance details, timestamp
copied) and the original restored to 100 and marked paid in
`partially_paid`, with `not_paid` and `fully_paid` empty.  In general the
residual and partially-paid lists are in pointwise correspondence: each
residual carries the same account, kind, period and timestamp as its
original, is unpaid, records provenance, and its amount is the 2-decimal
rounding of a positive leftover, while the original is restored to the
recorded original amount and marked paid; and whenever the per-receivable
payment loop ends with a positive amount after trying at least one
payment, the engine splits the receivable exactly this way. -/
theorem C1_partial_payment_splits_residual :
    (process_accounts_receivables
        [⟨1, 7, 100, 0, ChargeTypes.RENT, false, Details.empty, 5⟩]
        [⟨11, 7, 60, 0⟩] 100 =
      ⟨[⟨100, 7, 40, 0, ChargeTypes.RENT, false, Details.residualFrom 1, 5⟩],
       [], [⟨1, 7, 100, 0, ChargeTypes.RENT, true, Details.empty, 5⟩], [],
       [⟨11, 7, 60, 60⟩], 101⟩) ∧
    (∀ (ars : List AccountsReceivable) (ps : List Payment) (fresh : ℕ),
      List.Forall₂ (ResidualRel (origAmountMap (sortByInsertedDesc ars)))
        (process_accounts_receivables ars ps fresh).residual
        (process_accounts_receivables ars ps fresh).part_paid) ∧
    (∀ (orig : ℕ → ℚ) (r : AccountsReceivable) (rest : List AccountsReceivable)
        (ps : List Payment) (idx fresh : ℕ),
      0 < (allocLoop (ps.length + 1) ps idx r.amount_due r.paid false).amount_due →
      (allocLoop (ps.length + 1) ps idx r.amount_due r.paid false).tried = true →
      processLoop orig (r :: rest) ps idx fresh =
        (let o := allocLoop (ps.length + 1) ps idx r.amount_due r.paid false
         let nxt := processLoop orig rest o.payments o.idx (fresh + 1)
         ⟨⟨fresh, r.account_id, round2 o.amount_due, r.statement_date,
           r.charge_type, false, Details.residualFrom r.id, r.inserted_at⟩ ::
             nxt.residual,
          nxt.not_paid,
          { r with amount_due := orig r.id, paid := true } :: nxt.part_paid,
          nxt.fully_paid, nxt.payments, nxt.idx, nxt.fresh⟩)) := by
  refine ⟨by with_unfolding_all rfl, ?_, ?_⟩
  · intro ars ps fresh
    simp only [process_accounts_receivables]
    split
    · exact List.Forall₂.nil
    · exact processLoop_forall₂ _ _ _ _ _
  · intro orig r rest ps idx fresh h1 h2
    simp only [processLoop]
    rw [if_pos ⟨h1, h2⟩]

theorem C1_partial_payment_splits_residual_witness :
    0 < (allocLoop 2 [⟨11, 7, 60, 0⟩] 0 (100 : ℚ) false false).amount_due ∧
    processLoop (fun _ => 100)
        [⟨1, 7, 100, 0, ChargeTypes.RENT, false, Details.empty, 5⟩]
        [⟨11, 7, 60, 0⟩] 0 100 =
      (let o := allocLoop 2 [⟨11, 7, 60, 0⟩] 0
        (⟨1, 7, 100, 0, ChargeTypes.RENT, false, Details.empty, 5⟩ :
          AccountsReceivable).amount_due false false
       let nxt := processLoop (fun _ => 100) [] o.payments o.idx 101
       ⟨⟨100, 7, round2 o.amount_due, 0, ChargeTypes.RENT, false,
         Details.residualFrom 1, 5⟩ :: nxt.residual,
        nxt.not_paid,
        ⟨1, 7, 100, 0, ChargeTypes.RENT, true, Details.empty, 5⟩ :: nxt.part_paid,
        nxt.fully_paid, nxt.payments, nxt.idx, nxt.fresh⟩) :=
  ⟨of_decide_eq_true (by with_unfolding_all rfl),
   C1_partial_payment_splits_residual.2.2 (fun _ => 100)
     ⟨1, 7, 100, 0, ChargeTypes.RENT, false, Details.empty, 5⟩ [] [⟨11, 7, 60, 0⟩] 0 100
     (of_decide_eq_true (by with_unfolding_all rfl))
     (of_decide_eq_true (by with_unfolding_all rfl))⟩

/-- C2 counterexample: with a sub-cent payment of 59.999 against a
receivable of 100, the payments are consumed by 59.999, but the original
amount minus the minted residual's (rounded) amount is 100 − 40 = 60, so
the claimed equality fails as stated. -/
theorem C2_conservation_counterexample :
    ((process_accounts_receivables
        [⟨1, 7, 100, 0, ChargeTypes.RENT, false, Details.empty, 0⟩]
        [⟨11, 7, 59999/1000, 0⟩] 100).residual.map AccountsReceivable.amount_due
      = [40]) ∧
    ((process_accounts_receivables
        [⟨1, 7, 100, 0, ChargeTypes.RENT, false, Details.empty, 0⟩]
        [⟨11, 7, 59999/1000, 0⟩] 100).part_paid.map AccountsReceivable.amount_due
      = [100]) ∧
    (sumApplied (process_accounts_receivables
        [⟨1, 7, 100, 0, ChargeTypes.RENT, false, Details.empty, 0⟩]
        [⟨11, 7, 59999/1000, 0⟩] 100).payments
      - sumApplied [⟨11, 7, 59999/1000, 0⟩] = 59999/1000) ∧
    (59999/1000 : ℚ) ≠ 100 - 40 := by
  refine ⟨by with_unfolding_all rfl, by with_unfolding_all rfl,
    by with_unfolding_all rfl, by norm_num⟩

/-- C2 (amended): conservation holds per receivable provided every
monetary amount is a whole number of cents.  `allocLoop` is the payment
loop the engine runs for each receivable in turn, so the increase of
`sumApplied` across it is exactly the amount consumed from the payments
attributable to that receivable.  For a receivable that ends fully paid
the consumption equals its original `amount_due` unconditionally; for one
that ends partially paid it equals the original amount minus the minted
residual's rounded amount whenever the amounts involved are cent-valued
(the sub-cent counterexample above is what forces this restriction); and
in the partial case the engine indeed mints a residual carrying exactly
`round2` of the leftover. -/
theorem C2_conservation_cents (r : AccountsReceivable) (ps : List Payment)
    (idx : ℕ) :
    (((allocLoop (ps.length + 1) ps idx r.amount_due r.paid false).amount_due = 0 ∧
      (allocLoop (ps.length + 1) ps idx r.amount_due r.paid false).paid = true) →
      sumApplied (allocLoop (ps.length + 1) ps idx r.amount_due r.paid false).payments
        - sumApplied ps = r.amount_due) ∧
    ((0 < (allocLoop (ps.length + 1) ps idx r.amount_due r.paid false).amount_due ∧
      (allocLoop (ps.length + 1) ps idx r.amount_due r.paid false).tried = true) →
      Cents r.amount_due →
      (∀ p ∈ ps, Cents p.amount ∧ Cents p.amount_applied) →
      sumApplied (allocLoop (ps.length + 1) ps idx r.amount_due r.paid false).payments
        - sumApplied ps
        = r.amount_due
          - round2 (allocLoop (ps.length + 1) ps idx r.amount_due r.paid false).amount_due) ∧
    ((0 < (allocLoop (ps.length + 1) ps idx r.amount_due r.paid false).amount_due ∧
      (allocLoop (ps.length + 1) ps idx r.amount_due r.paid false).tried = true) →
      ∀ (orig : ℕ → ℚ) (rest : List AccountsReceivable) (fresh : ℕ),
      (processLoop orig (r :: rest) ps idx fresh).residual.head? =
        some ⟨fresh, r.account_id,
          round2 (allocLoop (ps.length + 1) ps idx r.amount_due r.paid false).amount_due,
          r.statement_date, r.charge_type, false, Details.residualFrom r.id,
          r.inserted_at⟩) := by
  refine ⟨?_, ?_, ?_⟩
  · rintro ⟨h0, -⟩
    have hs := allocLoop_sumApplied (ps.length + 1) ps idx r.amount_due r.paid false
    rw [h0] at hs
    linarith
  · rintro ⟨h1, -⟩ hc hp
    have hs := allocLoop_sumApplied (ps.length + 1) ps idx r.amount_due r.paid false
    have hcents := allocLoop_cents (ps.length + 1) ps idx r.amount_due r.paid false hc hp
    rw [round2_eq_self_of_cents hcents]
    linarith
  · intro h orig rest fresh
    simp only [processLoop]
    rw [if_pos h]
    rfl

theorem C2_conservation_cents_witness :
    ((allocLoop 2 [⟨11, 7, 60, 0⟩] 0
        (⟨1, 7, 100, 0, ChargeTypes.RENT, false, Details.empty, 5⟩ :
          AccountsReceivable).amount_due false false).amount_due ≠ 0) ∧
    (0 < (allocLoop 2 [⟨11, 7, 60, 0⟩] 0 (100 : ℚ) false false).amount_due) ∧
    (sumApplied (allocLoop 2 [⟨11, 7, 60, 0⟩] 0
        (⟨1, 7, 100, 0, ChargeTypes.RENT, false, Details.empty, 5⟩ :
          AccountsReceivable).amount_due false false).payments
      - sumApplied [⟨11, 7, 60, 0⟩]
      = 100 - round2 (allocLoop 2 [⟨11, 7, 60, 0⟩] 0 (100 : ℚ) false false).amount_due) :=
  ⟨of_decide_eq_true (by with_unfolding_all rfl),
   of_decide_eq_true (by with_unfolding_all rfl),
   (C2_conservation_cents
       ⟨1, 7, 100, 0, ChargeTypes.RENT, false, Details.empty, 5⟩
       [⟨11, 7, 60, 0⟩] 0).2.1
     ⟨of_decide_eq_true (by with_unfolding_all rfl),
      of_decide_eq_true (by with_unfolding_all rfl)⟩
     ⟨10000, by norm_num⟩
     (by
       intro p hp
       rw [List.mem_singleton] at hp
       subst hp
       exact ⟨⟨6000, by norm_num⟩, ⟨0, by norm_num⟩⟩)⟩

/-- C3: if every payment enters the engine with
`amount_applied ≤ amount`, then every payment still satisfies
`amount_applied ≤ amount` after `process_accounts_receivables`. -/
theorem C3_amount_applied_le_amount (ars : List AccountsReceivable)
    (ps : List Payment) (fresh : ℕ)
    (h : ∀ p ∈ ps, p.amount_applied ≤ p.amount) :
    ∀ p ∈ (process_accounts_receivables ars ps fresh).payments,
      p.amount_applied ≤ p.amount := by
  simp only [process_accounts_receivables]
  split
  · exact h
  · exact processLoop_applied_le _ _ _ _ _ h

theorem C3_amount_applied_le_amount_witness :
    (∀ p ∈ [(⟨11, 7, 60, 0⟩ : Payment)], p.amount_applied ≤ p.amount) ∧
    ∀ p ∈ (process_accounts_receivables
        [⟨1, 7, 100, 0, ChargeTypes.RENT, false, Details.empty, 5⟩]
        [⟨11, 7, 60, 0⟩] 100).payments, p.amount_applied ≤ p.amount :=
  ⟨of_decide_eq_true (by with_unfolding_all rfl),
   C3_amount_applied_le_amount
     [⟨1, 7, 100, 0, ChargeTypes.RENT, false, Details.empty, 5⟩]
     [⟨11, 7, 60, 0⟩] 100
     (of_decide_eq_true (by with_unfolding_all rfl))⟩

/-- C4: the engine sorts receivables by creation timestamp descending:
with two receivables of 30 where A was created later than B and a single
payment of 30, A is fully paid and B is not paid; with no payments the
returned `not_paid` list is exactly the input sorted by `inserted_at`
descending, and that sort is a permutation of the input sorted
non-increasingly by `inserted_at`. -/
theorem C4_processes_most_recent_first :
    (process_accounts_receivables
        [⟨2, 7, 30, 0, ChargeTypes.RENT, false, Details.empty, 1⟩,
         ⟨1, 7, 30, 0, ChargeTypes.RENT, false, Details.empty, 2⟩]
        [⟨11, 7, 30, 0⟩] 100 =
      ⟨[], [⟨2, 7, 30, 0, ChargeTypes.RENT, false, Details.empty, 1⟩], [],
       [⟨1, 7, 30, 0, ChargeTypes.RENT, true, Details.empty, 2⟩],
       [⟨11, 7, 30, 30⟩], 100⟩) ∧
    (∀ (ars : List AccountsReceivable) (fresh : ℕ),
      (process_accounts_receivables ars [] fresh).not_paid
        = sortByInsertedDesc ars) ∧
    (∀ ars : List AccountsReceivable,
      List.Sorted InsDesc (sortByInsertedDesc ars)) ∧
    (∀ ars : List AccountsReceivable,
      List.Perm (sortByInsertedDesc ars) ars) :=
  ⟨by with_unfolding_all rfl, fun ars fresh => rfl,
   sortByInsertedDesc_sorted, sortByInsertedDesc_perm⟩

/-- C5: evaluating `incur_late_fee` on a receivable whose statement date
is only 15 days before the processing date, under a config with
`overdue_cutoff_days = 20`, still emits a late fee of `100 × 0.05 = 5`:
the code compares against a hardcoded 10-day window (its inline comment
names `setting.overdue_cutoff_days`) and never reads the config field, as
the second conjunct shows by varying the field. -/
theorem C5_latefee_ignores_config_cutoff :
    (incur_late_fee [⟨1, 7, 100, 0, ChargeTypes.RENT, false, Details.empty, 0⟩]
        { defaultInvoiceSetting with overdue_cutoff_days := 20 }
        100 (some 15) [] 50 10
      = some [⟨10, 7, 5, 100, ChargeTypes.LATEFEE, false,
              Details.originalItemId 1, 50⟩]) ∧
    (incur_late_fee [⟨1, 7, 100, 0, ChargeTypes.RENT, false, Details.empty, 0⟩]
        { defaultInvoiceSetting with overdue_cutoff_days := 20 }
        100 (some 15) [] 50 10
      = incur_late_fee [⟨1, 7, 100, 0, ChargeTypes.RENT, false, Details.empty, 0⟩]
        { defaultInvoiceSetting with overdue_cutoff_days := 3 }
        100 (some 15) [] 50 10) := by
  exact ⟨by with_unfolding_all rfl, by with_unfolding_all rfl⟩

/-- C6: the duplicate filter removes exactly the candidates of non-OTHER
kind that match an outstanding entry on account, charge kind and
statement period; in particular every OTHER-kind candidate is retained,
even when an outstanding receivable with the same account and period
exists. -/
theorem C6_other_kind_never_deduplicated (cand outst : List AccountsReceivable) :
    (_check_duplicate cand outst
      = cand.filter (fun r => ! _compare_ar_pair r outst)) ∧
    (∀ r ∈ cand, r.charge_type = ChargeTypes.OTHER →
      r ∈ _check_duplicate cand outst) ∧
    (∀ r, _compare_ar_pair r outst = true ↔
      (r.charge_type ≠ ChargeTypes.OTHER ∧ ∃ i ∈ outst,
        r.account_id = i.account_id ∧ r.charge_type = i.charge_type ∧
        r.statement_date = i.statement_date)) := by
  refine ⟨check_duplicate_eq_filter _ _, ?_, fun r => _compare_ar_pair_iff r outst⟩
  intro r hr hOTHER
  rw [check_duplicate_eq_filter, List.mem_filter]
  refine ⟨hr, ?_⟩
  cases hcp : _compare_ar_pair r outst with
  | false => rfl
  | true => exact absurd hOTHER ((_compare_ar_pair_iff r outst).1 hcp).1

theorem C6_other_kind_never_deduplicated_witness :
    (⟨2, 7, 20, 0, ChargeTypes.OTHER, false, Details.empty, 0⟩ :
        AccountsReceivable) ∈
      _check_duplicate [⟨2, 7, 20, 0, ChargeTypes.OTHER, false, Details.empty, 0⟩]
        [⟨1, 7, 10, 0, ChargeTypes.OTHER, false, Details.empty, 0⟩] :=
  (C6_other_kind_never_deduplicated
      [⟨2, 7, 20, 0, ChargeTypes.OTHER, false, Details.empty, 0⟩]
      [⟨1, 7, 10, 0, ChargeTypes.OTHER, false, Details.empty, 0⟩]).2.1
    ⟨2, 7, 20, 0, ChargeTypes.OTHER, false, Details.empty, 0⟩
    (List.mem_singleton.2 rfl) rfl

/-- C7: the duplicate filter is idempotent: applying
`filter_for_new_items` to its own output, with the same outstanding set,
returns that output unchanged. -/
theorem C7_filter_for_new_items_idempotent
    (outst rents storages lates waters : List AccountsReceivable) :
    filter_for_new_items outst
        (filter_for_new_items outst rents storages lates waters).1
        (filter_for_new_items outst rents storages lates waters).2.1
        (filter_for_new_items outst rents storages lates waters).2.2.1
        (filter_for_new_items outst rents storages lates waters).2.2.2
      = filter_for_new_items outst rents storages lates waters := by
  simp only [filter_for_new_items]
  rw [check_duplicate_idem, check_duplicate_idem, check_duplicate_idem,
    check_duplicate_idem]

/-- C8 counterexample: an account with a lot assigned and a rent override
that is set but equal to 0 is charged the config's monthly rate of 475
(Python truthiness treats the 0.0 override as unset), not its override of
0 — contradicting the claim that an account with a lot is charged its
override whenever the override is set. -/
theorem C8_rent_override_zero_counterexample :
    (incur_recurring_charges [RecurringInput.acct ⟨1, some 3, some 0, 0⟩]
        ChargeTypes.RENT 0 defaultInvoiceSetting 0 10
      = Except.ok (some [⟨10, 1, 475, 0, ChargeTypes.RENT, false,
          Details.empty, 0⟩])) ∧
    (475 : ℚ) ≠ 0 := by
  exact ⟨by with_unfolding_all rfl, by norm_num⟩

/-- C8 (amended): in RENT issuance, an account with no lot assigned
produces no charge (its amount is computed as 0 and 0-amount charges are
excluded); an account with a lot is charged its rent override when the
override is set *and nonzero* (Python truthiness: a 0.0 override falls
back to the config rate), else the config's monthly rent rate; a zero
computed amount yields no charge and a negative one raises at
construction. -/
theorem C8_rent_issuance_rules (a : Account) (config : InvoiceSetting)
    (sd now : ℤ) (fresh : ℕ) :
    (_calculate_amount_due config ChargeTypes.RENT (RecurringInput.acct a)
      = some (if a.lot_id = none then 0
          else match a.rental_rate_override with
            | some o => if o ≠ 0 then o else (config.rent_monthly_rate : ℚ)
            | none => (config.rent_monthly_rate : ℚ))) ∧
    (a.lot_id = none →
      incur_recurring_charges [RecurringInput.acct a] ChargeTypes.RENT sd config
          now fresh
        = Except.ok (some [])) ∧
    (∀ amt, _calculate_amount_due config ChargeTypes.RENT (RecurringInput.acct a)
        = some amt →
      ((amt = 0 →
        incur_recurring_charges [RecurringInput.acct a] ChargeTypes.RENT sd config
            now fresh
          = Except.ok (some [])) ∧
       (0 < amt →
        incur_recurring_charges [RecurringInput.acct a] ChargeTypes.RENT sd config
            now fresh
          = Except.ok (some [⟨fresh, a.id, amt, sd, ChargeTypes.RENT, false,
              Details.empty, now⟩])) ∧
       (amt < 0 →
        incur_recurring_charges [RecurringInput.acct a] ChargeTypes.RENT sd config
            now fresh
          = Except.error ()))) := by
  refine ⟨rfl, ?_, ?_⟩
  · intro h
    have hc : _calculate_amount_due config ChargeTypes.RENT (RecurringInput.acct a)
        = some 0 := by
      simp [_calculate_amount_due, h]
    simp [incur_recurring_charges, hc, buildRecurring, Except.map]
  · intro amt hamt
    refine ⟨?_, ?_, ?_⟩
    · intro h0
      rw [h0] at hamt
      simp [incur_recurring_charges, hamt, buildRecurring, Except.map]
    · intro hpos
      have hne : amt ≠ 0 := ne_of_gt hpos
      have hnneg : ¬ amt < 0 := not_lt.2 hpos.le
      simp [incur_recurring_charges, hamt, hne, buildRecurring, _get_acct_id,
        mkAR?, validate_amount_input, hnneg, Except.map]
    · intro hneg
      have hne : amt ≠ 0 := ne_of_lt hneg
      simp [incur_recurring_charges, hamt, hne, buildRecurring, _get_acct_id,
        mkAR?, validate_amount_input, hneg, Except.map]

theorem C8_rent_issuance_rules_witness :
    incur_recurring_charges [RecurringInput.acct ⟨1, some 3, some 500, 0⟩]
        ChargeTypes.RENT 0 defaultInvoiceSetting 0 10
      = Except.ok (some [⟨10, 1, 500, 0, ChargeTypes.RENT, false,
          Details.empty, 0⟩]) :=
  (((C8_rent_issuance_rules ⟨1, some 3, some 500, 0⟩ defaultInvoiceSetting
      0 0 10).2.2 500 (by with_unfolding_all rfl)).2.1 (by norm_num))

/-- C9: constructing a Receivable with a negative amount and a non-OTHER
charge kind fails validation at construction; construction succeeds, with
the amount unchanged (never clamped), for any non-negative amount and for
any amount of kind OTHER. -/
theorem C9_negative_amount_validation (i aid : ℕ) (amt : ℚ) (sd : ℤ)
    (ct : ChargeTypes) (pd : Bool) (dt : Details) (ins : ℤ) :
    (amt < 0 → ct ≠ ChargeTypes.OTHER →
      mkAR? i aid amt sd ct pd dt ins = none) ∧
    (0 ≤ amt →
      mkAR? i aid amt sd ct pd dt ins = some ⟨i, aid, amt, sd, ct, pd, dt, ins⟩) ∧
    (ct = ChargeTypes.OTHER →
      mkAR? i aid amt sd ct pd dt ins = some ⟨i, aid, amt, sd, ct, pd, dt, ins⟩) := by
  refine ⟨fun h1 h2 => ?_, fun h => ?_, fun h => ?_⟩
  · simp [mkAR?, validate_amount_input, h1, h2]
  · simp [mkAR?, validate_amount_input, not_lt.2 h]
  · simp [mkAR?, validate_amount_input, h]

theorem C9_negative_amount_validation_witness :
    mkAR? 1 2 (-5) 0 ChargeTypes.RENT false Details.empty 0 = none ∧
    mkAR? 1 2 3 0 ChargeTypes.RENT false Details.empty 0
      = some ⟨1, 2, 3, 0, ChargeTypes.RENT, false, Details.empty, 0⟩ ∧
    mkAR? 1 2 (-5) 0 ChargeTypes.OTHER false Details.empty 0
      = some ⟨1, 2, -5, 0, ChargeTypes.OTHER, false, Details.empty, 0⟩ :=
  ⟨(C9_negative_amount_validation 1 2 (-5) 0 ChargeTypes.RENT false
      Details.empty 0).1 (by norm_num) (by decide),
   (C9_negative_amount_validation 1 2 3 0 ChargeTypes.RENT false
      Details.empty 0).2.1 (by norm_num),
   (C9_negative_amount_validation 1 2 (-5) 0 ChargeTypes.OTHER false
      Details.empty 0).2.2 rfl⟩

/-- C10: when the payments list is non-empty, a receivable entering the
engine with a negative `amount_due`, or with `amount_due = 0` while
`paid = false`, appears in none of the four returned lists.  (Distinct
ids and a fresh-id counter above every input id model the uniqueness of
`uuid4` identifiers.) -/
theorem C10_bad_entries_silently_dropped (ars : List AccountsReceivable)
    (ps : List Payment) (fresh : ℕ) (r : AccountsReceivable)
    (hps : ps ≠ []) (hr : r ∈ ars) (hbad : badEntry r)
    (hnd : (ars.map AccountsReceivable.id).Nodup)
    (hfresh : ∀ a ∈ ars, a.id < fresh) :
    r ∉ (process_accounts_receivables ars ps fresh).residual ∧
    r ∉ (process_accounts_receivables ars ps fresh).not_paid ∧
    r ∉ (process_accounts_receivables ars ps fresh).part_paid ∧
    r ∉ (process_accounts_receivables ars ps fresh).fully_paid := by
  have hps' : ¬ (ps.isEmpty = true) := by
    simp [List.isEmpty_iff, hps]
  have hperm := sortByInsertedDesc_perm ars
  have hndS : ((sortByInsertedDesc ars).map AccountsReceivable.id).Nodup :=
    (hperm.map AccountsReceivable.id).nodup_iff.2 hnd
  obtain ⟨hnp, hpp, hfp, hres⟩ := processLoop_ids
    (origAmountMap (sortByInsertedDesc ars)) (sortByInsertedDesc ars) ps 0 fresh
  simp only [process_accounts_receivables]
  rw [if_neg hps']
  have key : ∀ x (y : AccountsReceivable), y ∈ sortByInsertedDesc ars →
      x = r → x.id = y.id → ¬ badEntry y → False := by
    intro x y hy hxr hid hnb
    have hy' : y ∈ ars := hperm.mem_iff.1 hy
    have : r = y :=
      List.inj_on_of_nodup_map hnd hr hy' (by rw [← hxr, hid])
    exact hnb (this ▸ hbad)
  refine ⟨?_, ?_, ?_, ?_⟩
  · intro hmem
    have := hres r hmem
    exact absurd this (not_le.2 (hfresh r hr))
  · intro hmem
    obtain ⟨y, hy, hid, hnb⟩ := hnp r hmem
    exact key r y hy rfl hid hnb
  · intro hmem
    obtain ⟨y, hy, hid, hnb⟩ := hpp r hmem
    exact key r y hy rfl hid hnb
  · intro hmem
    obtain ⟨y, hy, hid, hnb⟩ := hfp r hmem
    exact key r y hy rfl hid hnb

theorem C10_bad_entries_silently_dropped_witness :
    ([(⟨11, 7, 60, 0⟩ : Payment)] ≠ []) ∧
    ((⟨1, 7, -5, 0, ChargeTypes.OTHER, false, Details.empty, 0⟩ :
        AccountsReceivable) ∈
      [⟨1, 7, -5, 0, ChargeTypes.OTHER, false, Details.empty, 0⟩,
       ⟨2, 7, 30, 0, ChargeTypes.RENT, false, Details.empty, 1⟩]) ∧
    ((⟨1, 7, -5, 0, ChargeTypes.OTHER, false, Details.empty, 0⟩ :
        AccountsReceivable) ∉
      (process_accounts_receivables
        [⟨1, 7, -5, 0, ChargeTypes.OTHER, false, Details.empty, 0⟩,
         ⟨2, 7, 30, 0, ChargeTypes.RENT, false, Details.empty, 1⟩]
        [⟨11, 7, 60, 0⟩] 10).not_paid) := by
  refine ⟨by simp, by simp, ?_⟩
  exact (C10_bad_entries_silently_dropped
    [⟨1, 7, -5, 0, ChargeTypes.OTHER, false, Details.empty, 0⟩,
     ⟨2, 7, 30, 0, ChargeTypes.RENT, false, Details.empty, 1⟩]
    [⟨11, 7, 60, 0⟩] 10
    ⟨1, 7, -5, 0, ChargeTypes.OTHER, false, Details.empty, 0⟩
    (by simp)
    (by simp)
    (Or.inl (of_decide_eq_true (by with_unfolding_all rfl)))
    (by simp)
    (by
      intro a ha
      rcases List.mem_cons.1 ha with rfl | ha
      · exact of_decide_eq_true rfl
      · rcases List.mem_cons.1 ha with rfl | ha
        · exact of_decide_eq_true rfl
        · simp at ha)).2.1

end RentInvoicing
